import Mathlib

/-!
Verification development for the Gongle "data protection theater" core
(`web_theatre.rs`, `theatre_api.rs`).

The Rust core is shallowly embedded:
* machine integers are `Nat` (u64/u32 values never overflow in the modelled paths);
* `f64` values are modelled by `FloatV` (an exact rational together with the
  special values `inf`, `ninf`, `nan`), with the IEEE special-value rules for
  the operations the code performs and the saturating `as u64` cast;
* the external crates (`chacha20poly1305`, `pbkdf2`'s hasher, `base64`,
  `SaltString`) are abstracted into a `CryptoEnv` of function parameters,
  fallible where the crate calls are fallible — the repository only
  concatenates / threads their outputs;
* every random draw (`OsRng`) is an explicit oracle input (`Draws` for the
  theater pipeline, explicit lists for the race), constrained by hypotheses
  exactly where `gen_range` / `gen_bool` constrain the drawn value;
* fallible Rust paths return `Option`; a Rust panic (out-of-bounds index)
  is a dedicated constructor (`RaceOutcome.panicked`).
-/

/-- Maximum value of a `u64`. -/
def u64Max : Nat := 18446744073709551615

/-- Model of an `f64` value: an exact rational, or one of the special values
`+∞`, `-∞`, `NaN`.  Rounding of finite arithmetic is not modelled (results are
exact rationals); the special-value propagation rules follow IEEE 754 for the
operations the race code performs.  `-0.0` is identified with `0`. -/
inductive FloatV where
  | fin (q : ℚ)
  | inf
  | ninf
  | nan
deriving DecidableEq

/-- IEEE multiplication on the `FloatV` model. -/
def fmul : FloatV → FloatV → FloatV
  | .nan, _ => .nan
  | .fin _, .nan => .nan
  | .inf, .nan => .nan
  | .ninf, .nan => .nan
  | .fin a, .fin b => .fin (a * b)
  | .inf, .fin b => if 0 < b then .inf else if b < 0 then .ninf else .nan
  | .fin a, .inf => if 0 < a then .inf else if a < 0 then .ninf else .nan
  | .ninf, .fin b => if 0 < b then .ninf else if b < 0 then .inf else .nan
  | .fin a, .ninf => if 0 < a then .ninf else if a < 0 then .inf else .nan
  | .inf, .inf => .inf
  | .inf, .ninf => .ninf
  | .ninf, .inf => .ninf
  | .ninf, .ninf => .inf

/-- IEEE division on the `FloatV` model (finite / 0 gives a signed infinity,
0 / 0 gives `NaN`). -/
def fdiv : FloatV → FloatV → FloatV
  | .nan, _ => .nan
  | .fin _, .nan => .nan
  | .inf, .nan => .nan
  | .ninf, .nan => .nan
  | .fin a, .fin b =>
      if b = 0 then (if 0 < a then .inf else if a < 0 then .ninf else .nan)
      else .fin (a / b)
  | .fin _, .inf => .fin 0
  | .fin _, .ninf => .fin 0
  | .inf, .fin b => if 0 ≤ b then .inf else .ninf
  | .ninf, .fin b => if 0 ≤ b then .ninf else .inf
  | .inf, .inf => .nan
  | .inf, .ninf => .nan
  | .ninf, .inf => .nan
  | .ninf, .ninf => .nan

/-- The Rust saturating cast `as u64` on the `FloatV` model: `NaN` and
negative values go to `0`, `+∞` and values above `u64::MAX` saturate to
`u64::MAX`, finite values are truncated toward zero. -/
def f2u64 : FloatV → Nat
  | .nan => 0
  | .ninf => 0
  | .inf => u64Max
  | .fin q => min u64Max ⌊q⌋.toNat

/-- Embedding of `usize`/integer inputs into the `f64` model (`as f64`). -/
def natF (n : Nat) : FloatV := .fin n

/-- UTF-8 encoding of a single character (the byte sequence `str::bytes`
iterates over in Rust). -/
def utf8EncodeChar (c : Char) : List Nat :=
  let n := c.toNat
  if n < 128 then [n]
  else if n < 2048 then [192 + n / 64, 128 + n % 64]
  else if n < 65536 then [224 + n / 4096, 128 + (n / 64) % 64, 128 + n % 64]
  else [240 + n / 262144, 128 + (n / 4096) % 64, 128 + (n / 64) % 64, 128 + n % 64]

/-- The UTF-8 bytes of a string (`s.as_bytes()` / `s.bytes()` in Rust). -/
def strBytes (s : String) : List Nat :=
  (s.data.map utf8EncodeChar).flatten

/-- Abstraction of the external cryptographic crates used by the core.  The
repository's own code only composes these; their internals live outside
`src/`.
* `aead key nonce plaintext`: `ChaCha20Poly1305::encrypt` (fallible in the
  crate's API, hence `Option`); the result already includes the 16-byte tag.
* `pbkdf2 password saltString rounds outLen`: the byte output of
  `Pbkdf2.hash_password_customized` for the given parameters.
* `b64encode`: `base64::encode`.
* `saltB64`: `SaltString::encode_b64` (fallible in the crate's API). -/
structure CryptoEnv where
  aead : List Nat → List Nat → List Nat → Option (List Nat)
  pbkdf2 : List Nat → String → Nat → Nat → List Nat
  b64encode : List Nat → String
  saltB64 : List Nat → Option String

/-- The fixed PBKDF2 iteration count used by `derive_key`
(`rounds: 600_000` in the source). -/
def PBKDF2_ROUNDS : Nat := 600000

/-- Model of `derive_key` (web_theatre.rs:478-502): encode the salt, run the iterated
password hash with `PBKDF2_ROUNDS` rounds and 32-byte output, copy the first
32 bytes of the hash output.  `none` models the error/panic paths (salt
encoding failure; `copy_from_slice` panics when fewer than 32 bytes come
back). -/
def derive_key (env : CryptoEnv) (password : String) (salt : List Nat) :
    Option (List Nat) :=
  match env.saltB64 salt with
  | none => none
  | some saltString =>
      let hashValue := env.pbkdf2 (strBytes password) saltString PBKDF2_ROUNDS 32
      if 32 ≤ hashValue.length then some (hashValue.take 32) else none

/-- Model of `basic_encrypt` (web_theatre.rs:269-297): draw a 32-byte salt and a
12-byte nonce (both explicit oracle inputs here), derive the key, AEAD-encrypt
the data, and return `salt ++ nonce ++ ciphertext`.  The unused-but-checked
`salt_string` binding of line 275 is kept as the first fallible step. -/
def basic_encrypt (env : CryptoEnv) (data password : String)
    (salt nonce : List Nat) : Option (List Nat) :=
  match env.saltB64 salt with
  | none => none
  | some _ =>
      match derive_key env password salt with
      | none => none
      | some key =>
          match env.aead key nonce (strBytes data) with
          | none => none
          | some encrypted => some (salt ++ nonce ++ encrypted)

/-- Theatrical encryption levels (web_theatre.rs:24-32). -/
inductive EncryptionLevel where
  | Basic
  | Premium
  | Paranoid
  | Tinfoil
  | Quantum
  | Alien
  | Eldritch
deriving DecidableEq

/-- Funeral types for data destruction ceremonies (web_theatre.rs:36-54).
`escape_velocity: f64` is carried as an exact rational. -/
inductive FuneralType where
  | Viking (longboat_size : Nat) (burning_arrows : Nat)
  | Space (trajectory : String) (escape_velocity : ℚ)
  | Quantum (superposition : Bool) (observer_count : Nat)
  | Eldritch (tentacles : Nat) (dimensions_breached : Nat) (sanity_cost : Int)
deriving DecidableEq

/-- The `{:?}` (Debug) rendering of a level, used in the result message and in
the achievement key. -/
def levelDebugName : EncryptionLevel → String
  | .Basic => "Basic"
  | .Premium => "Premium"
  | .Paranoid => "Paranoid"
  | .Tinfoil => "Tinfoil"
  | .Quantum => "Quantum"
  | .Alien => "Alien"
  | .Eldritch => "Eldritch"

/-- Per-level theatrical base delay in ms (web_theatre.rs:101-109). -/
def base_delay : EncryptionLevel → Nat
  | .Basic => 100
  | .Premium => 500
  | .Paranoid => 1000
  | .Tinfoil => 2000
  | .Quantum => 3000
  | .Alien => 4000
  | .Eldritch => 6666

/-- Per-level points table (web_theatre.rs:188-196). -/
def points_for : EncryptionLevel → Nat
  | .Basic => 100
  | .Premium => 500
  | .Paranoid => 1000
  | .Tinfoil => 2500
  | .Quantum => 5000
  | .Alien => 7500
  | .Eldritch => 66666

/-- The ordered `theatrical_elements` list a successful `encrypt_with_drama`
call produces, per level; for Quantum the `gen_bool(0.5)` coin decides the
fourth label (web_theatre.rs:120-185). -/
def theatrical_elements_for (level : EncryptionLevel) (coin : Bool) :
    List String :=
  match level with
  | .Basic =>
      ["Applied ROT13 (just kidding)",
       "Added blockchain dust"]
  | .Premium =>
      ["Double-encrypted for safety",
       "Blessed by cyber-monks"]
  | .Paranoid =>
      ["Wrapped in digital tin foil",
       "Hidden from government satellites",
       "5G-proof coating applied"]
  | .Tinfoil =>
      ["Compressed with anxiety",
       "Encrypted with conspiracy theories",
       "Chemtrail-resistant layer added"]
  | .Quantum =>
      ["Quantum entangled with parallel universe",
       "Schr√∂dinger\x27s encryption applied",
       "Observed by quantum cats"] ++
      [if coin then "Data is encrypted AND decrypted!"
       else "Data collapsed into encrypted state"]
  | .Alien =>
      ["Applied Area 51 technology",
       "Translated to alien language",
       "UFO cloaking activated"]
  | .Eldritch =>
      ["CÃ∏ÕéÃà≈•Ã∂Ã∞hÃ∑Ã∫ÃéuÃ∏ÃÆÃálÃ¥Ã∞ÃàhÃ¥Ã¨ÃÜ·π≥Ã∂Ãà Ã∑ÕáÃàÃÅfÃ∏Ã±ÃàhÃ∂Ã∫ÃÑtÃ∂ÃúÃî√§Ã∂ÃÅÕÖgÃ∑Ã±Ãà√±Ã∂Ã¨",
       "Reality.exe has stopped responding",
       "SÃµÃ±ÃàÃÅaÃ∑Ã§ÃênÃ∂ÃúÃàÃÅiÃ∑Ã¶ÃátÃ∏Ã∞ÃÑyÃ∑Ã∫Ãå Ã∏ÃúÃácÃ∏Ã£ÃàhÃ∂Ã∞ÃÑ√´Ã∂ÃÅÕÖcÃ∑Ã±ÃàkÃ∏ÃúÃá Ã∑Ã§ÃàfÃ∂Ã∞ÃÑ√§Ã∂ÃÅÕÖiÃ∑Ã¶ÃálÃ∏Ã£Ãà√´Ã∂ÃÅÕÖdÃ∑Ã∫Ãå"]

/-- Model of `generate_theatrical_password` (web_theatre.rs:300-310). -/
def generate_theatrical_password (user_id : Nat) (level : EncryptionLevel) :
    String :=
  match level with
  | .Basic => "user_" ++ toString user_id ++ "_password123"
  | .Premium => "user_" ++ toString user_id ++ "_premiumpassword!"
  | .Paranoid => "user_" ++ toString user_id ++ "_they_are_watching"
  | .Tinfoil => "user_" ++ toString user_id ++ "_5g_cant_penetrate_this"
  | .Quantum => "user_" ++ toString user_id ++ "_schrodingers_password"
  | .Alien => "user_" ++ toString user_id ++ "_area51_clearance"
  | .Eldritch => "user_" ++ toString user_id ++ "_ph_nglui_mglw_nafh"

/-- The fixed paranoid filler phrase set (web_theatre.rs:314-322). -/
def paranoid_phrases : List String :=
  ["THE GOVERNMENT IS READING THIS",
   "BIRDS AREN\x27T REAL",
   "THEY\x27RE IN THE WALLS",
   "TRUST NO ONE",
   "THE MOON LANDING WAS STAGED ON MARS",
   "5G CAUSES RAIN",
   "ILLUMINATI CONFIRMED"]

/-- The filler lines chosen by `generate_paranoid_padding` before joining:
`count` lines, the `i`-th drawn by the oracle `pick i` from the 7-phrase set
(web_theatre.rs:324-328). -/
def paddingLines (count : Nat) (pick : Nat → Fin 7) : List String :=
  (List.range count).map fun i => paranoid_phrases.getD (pick i).val ""

/-- Model of `generate_paranoid_padding` (web_theatre.rs:313-329): `count` is the
`gen_range(5..20)` draw, `pick i` the i-th phrase-index draw. -/
def generate_paranoid_padding (count : Nat) (pick : Nat → Fin 7) : String :=
  String.intercalate "\n" (paddingLines count pick)

/-- Model of `theatrical_compress` (web_theatre.rs:332-334). -/
def theatrical_compress (data : String) : String :=
  "COMPRESSED[" ++ data ++ "]DEFINITELY_SMALLER_NOW"

/-- The zalgo combining-mark alphabet (web_theatre.rs:338). -/
def zalgo_chars : List String :=
  ["Ãà",
   "Ãé",
   "Ãá",
   "ÃÑ",
   "ÃÜ",
   "Ãê",
   "Ãå",
   "ÃàÃÅ"]

/-- The random draws and environment reads one `encrypt_with_drama` call
consumes, as an explicit oracle: two salt/nonce pairs (Premium makes two
cipher calls), the Quantum coin (`gen_bool(0.5)`), the paranoid padding
draws, the per-character zalgo draws, the `gen::<u32>()` used in `data_id`,
and the fallible `start.elapsed()` clock read of line 201 — `none` models a
`SystemTimeError` propagated by its `?`. -/
structure Draws where
  salt1 : List Nat
  nonce1 : List Nat
  salt2 : List Nat
  nonce2 : List Nat
  coin : Bool
  padCount : Nat
  padPick : Nat → Fin 7
  zalgoCount : Nat → Nat
  zalgoPick : Nat → Nat → Fin 8
  dataIdRand : Nat
  elapsed : Option Nat

/-- Model of `add_zalgo_text` (web_theatre.rs:337-350): after the `i`-th character the
code appends `zalgoCount i` marks (a `gen_range(1..4)` draw), the `j`-th being
`zalgo_chars[zalgoPick i j]`. -/
def add_zalgo_text (d : Draws) (text : String) : String :=
  String.join <| text.data.mapIdx fun i c =>
    String.mk [c] ++
      String.join ((List.range (d.zalgoCount i)).map fun j =>
        zalgo_chars.getD (d.zalgoPick i j).val "")

/-- Web API response for encryption operations (web_theatre.rs:57-66). -/
structure EncryptionResult where
  success : Bool
  message : String
  data_id : String
  encryption_time_ms : Nat
  theatrical_elements : List String
  points_earned : Nat
  achievement_unlocked : Option String
deriving DecidableEq

/-- Data protection theater manager state (web_theatre.rs:69-88).  The
`HashMap<String, bool>` achievement tracker is modelled by the list of keys
that have been inserted (every inserted value is `true`). -/
structure DataTheater where
  encryption_binary : String
  drama_factor : ℚ
  achievements : List String
deriving DecidableEq

/-- Model of `DataTheater::new` (web_theatre.rs:81-88). -/
def DataTheater.new (encryption_binary : String) : DataTheater :=
  { encryption_binary := encryption_binary
    drama_factor := 1
    achievements := [] }

/-- The per-level encryption body of `encrypt_with_drama`
(web_theatre.rs:120-185): the value bound to `encrypted_data`, `none` when a
`?` propagates an error.  `d.salt1/d.nonce1` are the draws of the first
`basic_encrypt` call, `d.salt2/d.nonce2` those of Premium's second call. -/
def encryptedData (env : CryptoEnv) (d : Draws) (data password : String) :
    EncryptionLevel → Option (List Nat)
  | .Basic => basic_encrypt env data password d.salt1 d.nonce1
  | .Premium =>
      match basic_encrypt env data password d.salt1 d.nonce1 with
      | none => none
      | some first =>
          basic_encrypt env (env.b64encode first) password d.salt2 d.nonce2
  | .Paranoid =>
      basic_encrypt env
        (data ++ "\n" ++ generate_paranoid_padding d.padCount d.padPick)
        password d.salt1 d.nonce1
  | .Tinfoil =>
      match basic_encrypt env (theatrical_compress data) password
          d.salt1 d.nonce1 with
      | none => none
      | some encrypted =>
          some (strBytes (theatrical_compress (env.b64encode encrypted)))
  | .Quantum =>
      if d.coin then basic_encrypt env data password d.salt1 d.nonce1
      else basic_encrypt env ("QUANTUM:" ++ data) password d.salt1 d.nonce1
  | .Alien =>
      basic_encrypt env
        (env.b64encode ((strBytes data).map fun b => b ^^^ 42))
        password d.salt1 d.nonce1
  | .Eldritch =>
      basic_encrypt env (add_zalgo_text d data) password d.salt1 d.nonce1

/-- The achievement key `format!("{:?}_first", level)` (web_theatre.rs:354). -/
def achievement_key (level : EncryptionLevel) : String :=
  levelDebugName level ++ "_first"


/-- The per-level achievement label (web_theatre.rs:359-367). -/
def achievement_label : EncryptionLevel → String
  | .Basic => "Baby\x27s First Encryption!"
  | .Premium => "Premium Member!"
  | .Paranoid => "They\x27re Watching!"
  | .Tinfoil => "Conspiracy Theorist!"
  | .Quantum => "Quantum Entangled!"
  | .Alien => "Area 51 Clearance!"
  | .Eldritch => "·πÇÃ∑ÃàÃÅ√§Ã∂Ã§ÃÅdÃ∏Ã∞ÃànÃ∑Ã∫Ãá√´Ã∂ÃÅÕÖsÃ∏Ã£ÃàsÃ∑Ã±Ãå Ã∏ÃúÃá√ãÃ∂Ã§ÃÅmÃ∏Ã∞ÃàbÃ∑Ã¶ÃárÃ∏Ã£Ãà√§Ã∂ÃÅÕÖcÃ∑Ã∫Ãå√´Ã∏Ã±ÃádÃ∑Ã§Ãà!"

/-- Model of `check_achievements` (web_theatre.rs:353-371): if the level's key is
not yet in the registry, insert it and return the label; otherwise return
`none`.  Returns (label-or-none, updated registry); `user_id` is accepted and
ignored exactly as in the source. -/
def check_achievements (achievements : List String) (_user_id : Nat)
    (level : EncryptionLevel) : Option String × List String :=
  if achievement_key level ∈ achievements then (none, achievements)
  else (some (achievement_label level), achievement_key level :: achievements)

/-- Model of `encrypt_with_drama` (web_theatre.rs:91-212) as a state-passing
function on the `DataTheater` state.  The theatrical sleep has no observable
effect beyond time and is dropped; everything else follows the source order:
build the theatrical element list, run the per-level encryption (a `?` error
returns early, leaving the state untouched), then check achievements at line
199 — the only state mutation — and only afterwards run the fallible
`start.elapsed()?` clock read of line 201: when it fails, the error is
returned with the registry mutation already applied (`&mut self` keeps it).
`none` models the propagated `anyhow` error. -/
def encrypt_with_drama (env : CryptoEnv) (st : DataTheater) (user_id : Nat)
    (data : String) (level : EncryptionLevel) (d : Draws) :
    Option EncryptionResult × DataTheater :=
  let password := generate_theatrical_password user_id level
  let elements := theatrical_elements_for level d.coin
  match encryptedData env d data password level with
  | none => (none, st)
  | some _ =>
      let pair := check_achievements st.achievements user_id level
      match d.elapsed with
      | none => (none, { st with achievements := pair.2 })
      | some elapsedMs =>
          (some
            { success := true
              message := "Data encrypted with " ++ levelDebugName level ++
                " level security!"
              data_id := "GONGLE-" ++ toString user_id ++ "-" ++
                toString d.dataIdRand
              encryption_time_ms := elapsedMs
              theatrical_elements := elements
              points_earned := points_for level
              achievement_unlocked := pair.1 },
           { st with achievements := pair.2 })

/-- One caller request to `encrypt_with_drama`: arguments plus the random
draws that call consumes. -/
structure EncInput where
  user_id : Nat
  data : String
  level : EncryptionLevel
  draws : Draws

/-- One `encrypt_with_drama` invocation on a packaged input. -/
def stepTheater (env : CryptoEnv) (st : DataTheater) (x : EncInput) :
    Option EncryptionResult × DataTheater :=
  encrypt_with_drama env st x.user_id x.data x.level x.draws

/-- The theater state after a sequence of `encrypt_with_drama` calls. -/
def runTrace (env : CryptoEnv) (st : DataTheater) : List EncInput → DataTheater
  | [] => st
  | x :: xs => runTrace env (stepTheater env st x).2 xs

/-- Whether a call with input `x` reaches the achievement check of line 199,
i.e. its encryption stage succeeds.  This depends only on the input and the
crypto environment, never on the achievement registry.  Overall success
additionally requires the later `start.elapsed()?` read (`x.draws.elapsed`)
to succeed, so a call can reach the check — and consume the grant — yet still
return an error. -/
def reachesGrant (env : CryptoEnv) (x : EncInput) : Prop :=
  (encryptedData env x.draws x.data
      (generate_theatrical_password x.user_id x.level) x.level).isSome

instance (env : CryptoEnv) (x : EncInput) : Decidable (reachesGrant env x) := by
  unfold reachesGrant
  infer_instance

/-- Model of the level-tag dispatch of `encrypt_handler`
(theatre_api.rs:50-59): the `match data.level.as_str()` with a `_ => Basic`
fallback arm, written as the equivalent first-match-wins chain. -/
def parse_level (s : String) : EncryptionLevel :=
  if s = "basic" then .Basic
  else if s = "premium" then .Premium
  else if s = "paranoid" then .Paranoid
  else if s = "tinfoil" then .Tinfoil
  else if s = "quantum" then .Quantum
  else if s = "alien" then .Alien
  else if s = "eldritch" then .Eldritch
  else .Basic

/-- Model of the funeral-tag dispatch of `funeral_handler`
(theatre_api.rs:81-103), including the per-tag fixed default parameters and
the `_ => Viking { longboat_size: 30, burning_arrows: 50 }` fallback. -/
def parse_funeral_type (s : String) : FuneralType :=
  if s = "viking" then .Viking 50 100
  else if s = "space" then .Space "Mars" (56/5)
  else if s = "quantum" then .Quantum true 42
  else if s = "eldritch" then .Eldritch 888 13 (-9999)
  else .Viking 30 50

/-- Encryption race participant (web_theatre.rs:411-417); `encryption_speed`
is an `f64`. -/
structure RaceParticipantM where
  name : String
  encryption_speed : FloatV
  vehicle : String
  trash_talk : String
deriving DecidableEq

/-- One race result row (web_theatre.rs:457-463). -/
structure RaceResultM where
  name : String
  time_ms : Nat
  vehicle : String
  victory_cry : String
deriving DecidableEq

/-- Race results (web_theatre.rs:450-455). -/
structure RaceResultsM where
  winner : String
  results : List RaceResultM
  prize : String
deriving DecidableEq

/-- The fixed victory-cry phrase set of `generate_victory_cry`
(web_theatre.rs:465-475). -/
def victory_cries : List String :=
  ["ENCRYPTED TO THE MOON!",
   "EAT MY CIPHER DUST!",
   "CHACHA20 GO BRRRRR!",
   "WITNESS MY ENTROPY!",
   "QUANTUM SUPREMACY ACHIEVED!",
   "I AM THE KEY MASTER!"]

/-- The `time_ms` computation of one loop iteration
(web_theatre.rs:428-434): `performance = speed * mult` with
`mult = gen_range(0.8..1.2)`, `time = (data_size as f64 / performance) *
1000.0`, then the saturating `time as u64` cast. -/
def raceTime (data_size : Nat) (speed mult : FloatV) : Nat :=
  f2u64 (fmul (fdiv (natF data_size) (fmul speed mult)) (.fin 1000))

/-- The unsorted result rows produced by the `for participant in participants`
loop, pairing the i-th participant with its multiplier draw `mult` and its
victory-cry draw (an index into the six cries, as `gen_range(0..len)`
guarantees). -/
def computeResults (data_size : Nat) :
    List RaceParticipantM → List FloatV → List (Fin 6) → List RaceResultM
  | p :: ps, m :: ms, c :: cs =>
      { name := p.name
        time_ms := raceTime data_size p.encryption_speed m
        vehicle := p.vehicle
        victory_cry := victory_cries.getD c.val "" } ::
      computeResults data_size ps ms cs
  | _, _, _ => []

/-- The comparison realised by `results.sort_by_key(|r| r.time_ms)` once each
row is tagged with its original position: Rust's `sort_by_key` is a stable
ascending sort, i.e. the unique sort by the lexicographic order on
(key, original index). -/
def raceLe (a b : Nat × RaceResultM) : Bool :=
  decide (a.2.time_ms < b.2.time_ms ∨
    (a.2.time_ms = b.2.time_ms ∧ a.1 ≤ b.1))

/-- Outcome of `encryption_race`: a results object, or the Rust panic raised
by the out-of-bounds `results[0]` access. -/
inductive RaceOutcome where
  | ok (r : RaceResultsM)
  | panicked
deriving DecidableEq

/-- The state of the `results` vector after
`results.sort_by_key(|r| r.time_ms)` (web_theatre.rs:440): Rust's
`sort_by_key` is a stable ascending sort, i.e. the unique permutation that is
sorted under the lexicographic order on (key, original position). -/
def raceSorted (participants : List RaceParticipantM) (data_size : Nat)
    (mults : List FloatV) (cries : List (Fin 6)) : List RaceResultM :=
  ((computeResults data_size participants mults cries).enum.mergeSort
    raceLe).map Prod.snd

/-- Model of `encryption_race` (web_theatre.rs:420-447): compute one row per
participant, stably sort ascending by `time_ms`, then read `results[0]` for
the winner — which panics when the participant list is empty.  `mults` and
`cries` are the per-participant random draws. -/
def encryption_race (participants : List RaceParticipantM) (data_size : Nat)
    (mults : List FloatV) (cries : List (Fin 6)) : RaceOutcome :=
  match raceSorted participants data_size mults cries with
  | [] => .panicked
  | w :: rest =>
      .ok { winner := w.name
            results := w :: rest
            prize := "A golden encryption key (decorative only)" }

/-- The strict lexicographic order on (original position)-tagged result rows:
earlier time, or equal time and earlier original position.  A stable ascending
sort is exactly a permutation that is `Pairwise raceLt` after tagging. -/
def raceLt (a b : Nat × RaceResultM) : Prop :=
  a.2.time_ms < b.2.time_ms ∨ (a.2.time_ms = b.2.time_ms ∧ a.1 < b.1)

/-- The range `gen_range(0.8..1.2)` constrains the race multiplier draw to:
a finite value in [0.8, 1.2). -/
def uniformMult (m : FloatV) : Prop :=
  ∃ q : ℚ, m = .fin q ∧ 4/5 ≤ q ∧ q < 6/5

/-- Per-level artifact count as the code realises it (the spec table of
§4.3, with Eldritch corrected from 2 to the 3 labels the code pushes;
Quantum counts its 3 fixed labels plus the one coin-dependent label). -/
def spec_artifact_count : EncryptionLevel → Nat
  | .Basic => 2
  | .Premium => 2
  | .Paranoid => 3
  | .Tinfoil => 3
  | .Quantum => 4
  | .Alien => 3
  | .Eldritch => 3

/-- The seven recognised level tags of `encrypt_handler`
(theatre_api.rs:50-58). -/
def known_level_tags : List String :=
  ["basic", "premium", "paranoid", "tinfoil", "quantum", "alien", "eldritch"]

/-- The four recognised funeral tags of `funeral_handler`
(theatre_api.rs:81-98). -/
def known_funeral_tags : List String :=
  ["viking", "space", "quantum", "eldritch"]

/-- Theatrical-element extraction from an optional result (empty on error). -/
def resultElements : Option EncryptionResult → List String
  | some r => r.theatrical_elements
  | none => []

/-- Achievement-field extraction from an optional result (`none` on error). -/
def resultAchievement : Option EncryptionResult → Option String
  | some r => r.achievement_unlocked
  | none => none

/-- What §4.5 promises for a non-empty race (the provable form): successful
result whose rows are a permutation of the formula-computed rows, sorted
ascending by `time_ms`, stably — witnessed by a position-tagged list that is
strictly `raceLt`-sorted — and whose winner is the first sorted row. -/
def race_spec (ps : List RaceParticipantM) (data_size : Nat)
    (ms : List FloatV) (cs : List (Fin 6)) : Prop :=
  ∃ r, encryption_race ps data_size ms cs = .ok r ∧
    r.results.Perm (computeResults data_size ps ms cs) ∧
    List.Pairwise (fun a b => a.time_ms ≤ b.time_ms) r.results ∧
    (∃ L : List (Nat × RaceResultM),
        L.map Prod.snd = r.results ∧
        L.Perm (computeResults data_size ps ms cs).enum ∧
        List.Pairwise raceLt L) ∧
    (∃ w rest, r.results = w :: rest ∧ r.winner = w.name) ∧
    r.results.length = ps.length ∧
    r.prize = "A golden encryption key (decorative only)"

/-- The zero-speed-participant safety property (the provable form of C10 for
positive payloads): the race still returns a result, some row's time is
`u64::MAX`, every row's time is at most `u64::MAX`, and the last sorted row's
time is `u64::MAX` (the saturated participant sorts at the end, up to ties at
`u64::MAX`). -/
def zero_speed_spec (ps : List RaceParticipantM) (data_size : Nat)
    (ms : List FloatV) (cs : List (Fin 6)) : Prop :=
  ∃ r, encryption_race ps data_size ms cs = .ok r ∧
    (∃ res ∈ r.results, res.time_ms = u64Max) ∧
    (∀ res ∈ r.results, res.time_ms ≤ u64Max) ∧
    (∃ last, r.results.getLast? = some last ∧ last.time_ms = u64Max)

/-- Concrete crypto environment for witnesses: a constant AEAD, a constant
salt encoding, and a PBKDF2 returning `outLen` bytes of 7s. -/
def envW : CryptoEnv :=
  { aead := fun _ _ _ => some [9]
    pbkdf2 := fun _ _ _ outLen => List.replicate outLen 7
    b64encode := fun _ => "b64"
    saltB64 := fun _ => some "SALT" }

/-- Crypto environment whose AEAD always fails, driving the error paths. -/
def envFail : CryptoEnv :=
  { envW with aead := fun _ _ _ => none }

/-- Concrete draw oracle for witnesses. -/
def dW : Draws :=
  { salt1 := List.replicate 32 0
    nonce1 := List.replicate 12 1
    salt2 := List.replicate 32 2
    nonce2 := List.replicate 12 3
    coin := true
    padCount := 5
    padPick := fun _ => 0
    zalgoCount := fun _ => 1
    zalgoPick := fun _ _ => 0
    dataIdRand := 4
    elapsed := some 0 }

/-- Draw oracle whose final `start.elapsed()` read fails
(`SystemTimeError`). -/
def dNoClock : Draws :=
  { dW with elapsed := none }

/-- Concrete Basic-level request for witnesses. -/
def xW : EncInput :=
  { user_id := 1, data := "hi", level := .Basic, draws := dW }

/-- A Basic-level request that encrypts successfully but fails the final
clock read: it returns an error yet consumes the achievement grant. -/
def xBurn : EncInput :=
  { user_id := 1, data := "hi", level := .Basic, draws := dNoClock }

/-- A participant whose speed factor is `0.0`. -/
def zeroP : RaceParticipantM :=
  { name := "Zero", encryption_speed := .fin 0, vehicle := "v",
    trash_talk := "t" }

/-- An ordinary participant for race witnesses. -/
def fastP : RaceParticipantM :=
  { name := "Fast", encryption_speed := .fin 2, vehicle := "w",
    trash_talk := "u" }

theorem f2u64_le (v : FloatV) : f2u64 v ≤ u64Max := by
  cases v <;> simp [f2u64]

theorem getD_paranoid_mem (i : Fin 7) :
    paranoid_phrases.getD i.val "" ∈ paranoid_phrases := by
  have h7 : paranoid_phrases.length = 7 := by decide
  have := i.isLt
  fin_cases i <;> decide

/-- C3: for every plaintext and password, `basic_encrypt` returns exactly
`salt(32) ‖ nonce(12) ‖ ciphertext+tag`, where the salt is the fresh random
value fed to key derivation and the nonce the fresh random value fed to the
AEAD call. -/
theorem cipher_blob_layout (env : CryptoEnv) (data password : String)
    (salt nonce out : List Nat)
    (hsalt : salt.length = 32) (hnonce : nonce.length = 12)
    (h : basic_encrypt env data password salt nonce = some out) :
    ∃ key ct, derive_key env password salt = some key ∧
      env.aead key nonce (strBytes data) = some ct ∧
      out = salt ++ nonce ++ ct ∧
      out.take 32 = salt ∧
      (out.drop 32).take 12 = nonce ∧
      (out.drop 32).drop 12 = ct := by
  cases hs : env.saltB64 salt with
  | none => simp [basic_encrypt, hs] at h
  | some s =>
    cases hk : derive_key env password salt with
    | none => simp [basic_encrypt, hs, hk] at h
    | some key =>
      cases ha : env.aead key nonce (strBytes data) with
      | none => simp [basic_encrypt, hs, hk, ha] at h
      | some ct =>
        simp only [basic_encrypt, hs, hk, ha, Option.some_inj] at h
        subst h
        refine ⟨key, ct, rfl, ha, rfl, ?_, ?_, ?_⟩
        · rw [List.append_assoc, ← hsalt, List.take_left]
        · rw [List.append_assoc, ← hsalt, List.drop_left, ← hnonce,
            List.take_left]
        · rw [List.append_assoc, ← hsalt, List.drop_left, ← hnonce,
            List.drop_left]

/-- Witness for C3 at a concrete environment, salt and nonce. -/
theorem cipher_blob_layout_witness :
    (List.replicate 32 0).length = 32 ∧
    (List.replicate (12 : Nat) 1).length = 12 ∧
    basic_encrypt envW "hi" "pw" (List.replicate 32 0) (List.replicate 12 1) =
      some (List.replicate 32 0 ++ List.replicate 12 1 ++ [9]) ∧
    (∃ key ct,
      derive_key envW "pw" (List.replicate 32 0) = some key ∧
      envW.aead key (List.replicate 12 1) (strBytes "hi") = some ct ∧
      (List.replicate 32 0 ++ List.replicate 12 1 ++ [9] : List Nat) =
        List.replicate 32 0 ++ List.replicate 12 1 ++ ct ∧
      (List.replicate 32 0 ++ List.replicate 12 1 ++ [9] : List Nat).take 32 =
        List.replicate 32 0 ∧
      ((List.replicate 32 0 ++ List.replicate 12 1 ++ [9] : List Nat).drop
        32).take 12 = List.replicate 12 1 ∧
      ((List.replicate 32 0 ++ List.replicate 12 1 ++ [9] : List Nat).drop
        32).drop 12 = ct) :=
  ⟨by simp, by simp,
   by decide,
   cipher_blob_layout envW "hi" "pw" _ _ _ (by simp) (by simp) (by decide)⟩

/-- C4: `derive_key` is deterministic in (password, salt), every successful
call returns exactly 32 bytes, and the key is the (first 32 bytes of the)
iterated salted password hash run with the fixed count
`PBKDF2_ROUNDS = 600000 ≥ 600000`. -/
theorem derive_key_contract (env : CryptoEnv) :
    (∀ p₁ s₁ p₂ s₂, p₁ = p₂ → s₁ = s₂ →
        derive_key env p₁ s₁ = derive_key env p₂ s₂) ∧
    (∀ p s key, derive_key env p s = some key → key.length = 32) ∧
    PBKDF2_ROUNDS = 600000 ∧ 600000 ≤ PBKDF2_ROUNDS ∧
    (∀ p s ss, env.saltB64 s = some ss →
        32 ≤ (env.pbkdf2 (strBytes p) ss PBKDF2_ROUNDS 32).length →
        derive_key env p s =
          some ((env.pbkdf2 (strBytes p) ss PBKDF2_ROUNDS 32).take 32)) := by
  refine ⟨?_, ?_, rfl, le_refl _, ?_⟩
  · intro p₁ s₁ p₂ s₂ hp hs; rw [hp, hs]
  · intro p s key h
    cases hs : env.saltB64 s with
    | none => simp [derive_key, hs] at h
    | some ss =>
      by_cases hlen : 32 ≤ (env.pbkdf2 (strBytes p) ss PBKDF2_ROUNDS 32).length
      · simp only [derive_key, hs, if_pos hlen, Option.some_inj] at h
        rw [← h, List.length_take]
        omega
      · simp [derive_key, hs, hlen] at h
  · intro p s ss hs hlen
    simp only [derive_key, hs]
    rw [if_pos hlen]

/-- Witness for C4 at a concrete environment, password and salt. -/
theorem derive_key_contract_witness :
    envW.saltB64 (List.replicate 32 0) = some "SALT" ∧
    32 ≤ (envW.pbkdf2 (strBytes "pw") "SALT" PBKDF2_ROUNDS 32).length ∧
    derive_key envW "pw" (List.replicate 32 0) =
      some ((envW.pbkdf2 (strBytes "pw") "SALT" PBKDF2_ROUNDS 32).take 32) ∧
    (∀ key, derive_key envW "pw" (List.replicate 32 0) = some key →
      key.length = 32) :=
  ⟨rfl, by simp [envW],
   (derive_key_contract envW).2.2.2.2 "pw" _ "SALT" rfl (by simp [envW]),
   fun key h => (derive_key_contract envW).2.1 _ _ _ h⟩

/-- C8: an unrecognized level tag is not an error — it is dispatched exactly
like Basic (same `encrypt_with_drama` call, hence same composition, same 2
artifacts, Basic's 100 points) — and an unrecognized funeral tag falls back
to the Viking variant (with the fallback arm's parameters 30/50). -/
theorem unknown_tags_fall_back (lt ft : String)
    (hl : lt ∉ known_level_tags) (hf : ft ∉ known_funeral_tags) :
    parse_level lt = .Basic ∧
    (∀ env st user_id data d,
        encrypt_with_drama env st user_id data (parse_level lt) d =
          encrypt_with_drama env st user_id data .Basic d) ∧
    points_for (parse_level lt) = 100 ∧
    (∀ c, (theatrical_elements_for (parse_level lt) c).length = 2) ∧
    parse_funeral_type ft = .Viking 30 50 := by
  simp only [known_level_tags, List.mem_cons, List.not_mem_nil, or_false,
    not_or] at hl
  obtain ⟨h1, h2, h3, h4, h5, h6, h7⟩ := hl
  have hpl : parse_level lt = .Basic := by
    simp [parse_level, h1, h2, h3, h4, h5, h6, h7]
  simp only [known_funeral_tags, List.mem_cons, List.not_mem_nil, or_false,
    not_or] at hf
  obtain ⟨g1, g2, g3, g4⟩ := hf
  refine ⟨hpl, ?_, ?_, ?_, ?_⟩
  · intro env st user_id data d; rw [hpl]
  · rw [hpl]; rfl
  · intro c; rw [hpl]; rfl
  · simp [parse_funeral_type, g1, g2, g3, g4]

/-- Witness for C8 at the unknown tag `"xyz"`. -/
theorem unknown_tags_fall_back_witness :
    "xyz" ∉ known_level_tags ∧ "xyz" ∉ known_funeral_tags ∧
    parse_level "xyz" = .Basic ∧
    points_for (parse_level "xyz") = 100 ∧
    parse_funeral_type "xyz" = .Viking 30 50 := by
  have h := unknown_tags_fall_back "xyz" "xyz" (by decide) (by decide)
  exact ⟨by decide, by decide, h.1, h.2.2.1, h.2.2.2.2⟩

/-- C9 (amended): the Paranoid filler block consists of between 5 and 19
lines — `gen_range(5..20)` excludes 20 — each drawn independently, with
repetition allowed, from the fixed 7-phrase set, and it is appended to the
plaintext after a newline before the single Cipher Unit call; a 19-line block
is a possible outcome. -/
theorem paranoid_padding_lines (count : Nat) (pick : Nat → Fin 7)
    (h5 : 5 ≤ count) (h20 : count < 20) :
    (paddingLines count pick).length = count ∧
    5 ≤ (paddingLines count pick).length ∧
    (paddingLines count pick).length ≤ 19 ∧
    (∀ line ∈ paddingLines count pick, line ∈ paranoid_phrases) ∧
    (∀ env d data password,
        encryptedData env d data password .Paranoid =
          basic_encrypt env
            (data ++ "\n" ++
              generate_paranoid_padding d.padCount d.padPick)
            password d.salt1 d.nonce1) ∧
    (∃ pick19 : Nat → Fin 7, (paddingLines 19 pick19).length = 19) := by
  have hlen : (paddingLines count pick).length = count := by
    simp [paddingLines]
  refine ⟨hlen, by omega, by omega, ?_, ?_, ?_⟩
  · intro line hline
    simp only [paddingLines, List.mem_map, List.mem_range] at hline
    obtain ⟨i, -, hi⟩ := hline
    rw [← hi]
    exact getD_paranoid_mem (pick i)
  · intro env d data password; rfl
  · exact ⟨fun _ => 0, by simp [paddingLines]⟩

/-- Witness for C9 at the draw `count = 19`. -/
theorem paranoid_padding_lines_witness :
    5 ≤ 19 ∧ 19 < 20 ∧
    (paddingLines 19 (fun _ => 0)).length = 19 ∧
    (∀ line ∈ paddingLines 19 (fun _ => 0), line ∈ paranoid_phrases) :=
  ⟨by omega, by omega,
   (paranoid_padding_lines 19 (fun _ => 0) (by omega) (by omega)).1,
   (paranoid_padding_lines 19 (fun _ => 0) (by omega)
     (by omega)).2.2.2.1⟩

/-- Counterexample for C9 as stated: a 20-line filler block is impossible —
`gen_range(5..20)` draws at most 19 lines. -/
theorem paranoid_padding_no_20 :
    ¬ ∃ (count : Nat) (pick : Nat → Fin 7), 5 ≤ count ∧ count < 20 ∧
      (paddingLines count pick).length = 20 := by
  rintro ⟨count, pick, -, h20, hlen⟩
  simp [paddingLines] at hlen
  omega

/-- C2 (amended): on the empty participant list `encryption_race` panics
(the out-of-bounds `results[0]` read); it produces no `RaceResults` and no
error value — the code has no `InvalidInputError` path. -/
theorem race_empty_panics (data_size : Nat) (mults : List FloatV)
    (cries : List (Fin 6)) :
    encryption_race [] data_size mults cries = RaceOutcome.panicked := by
  have hnil : computeResults data_size [] mults cries = [] := by
    cases mults <;> cases cries <;> rfl
  simp [encryption_race, raceSorted, hnil]

/-- Counterexample for C2 as stated: at the concrete empty input the race
panics and in particular returns no `RaceResults` at all. -/
theorem race_empty_panics_cex :
    encryption_race [] 0 [] [] = RaceOutcome.panicked ∧
    ∀ r, encryption_race [] 0 [] [] ≠ RaceOutcome.ok r := by
  have hp : encryption_race [] 0 [] [] = RaceOutcome.panicked := by
    simp [encryption_race, raceSorted, computeResults]
  refine ⟨hp, ?_⟩
  intro r h
  rw [hp] at h
  exact absurd h (by simp)

/-- C1 (amended): a successful `encrypt_with_drama` returns exactly the fixed
per-level artifact list, in order: Basic 2, Premium 2, Paranoid 3, Tinfoil 3,
Quantum 3 fixed plus exactly one of two coin-dependent labels, Alien 3 —
and Eldritch 3 fixed labels (the code pushes three, not the two the claim
states). -/
theorem theatrical_elements_table (env : CryptoEnv) (st : DataTheater)
    (user_id : Nat) (data : String) (level : EncryptionLevel) (d : Draws)
    (r : EncryptionResult)
    (h : (encrypt_with_drama env st user_id data level d).1 = some r) :
    r.theatrical_elements = theatrical_elements_for level d.coin ∧
    r.theatrical_elements.length = spec_artifact_count level := by
  have helems : r.theatrical_elements = theatrical_elements_for level d.coin := by
    cases he : encryptedData env d data
        (generate_theatrical_password user_id level) level with
    | none => simp [encrypt_with_drama, he] at h
    | some enc =>
      cases hel : d.elapsed with
      | none => simp [encrypt_with_drama, he, hel] at h
      | some elapsedMs =>
        simp only [encrypt_with_drama, he, hel, Option.some_inj] at h
        rw [← h]
  refine ⟨helems, ?_⟩
  rw [helems]
  cases level <;> cases hc : d.coin <;>
    simp [theatrical_elements_for, spec_artifact_count]

/-- Witness for C1 at a concrete successful Basic-level call. -/
theorem theatrical_elements_table_witness :
    ∃ r, (encrypt_with_drama envW (DataTheater.new "bin") 1 "hi" .Basic
        dW).1 = some r ∧
      r.theatrical_elements = theatrical_elements_for .Basic dW.coin ∧
      r.theatrical_elements.length = spec_artifact_count .Basic := by
  obtain ⟨r, hr⟩ : ∃ r,
      (encrypt_with_drama envW (DataTheater.new "bin") 1 "hi" .Basic
        dW).1 = some r := ⟨_, rfl⟩
  obtain ⟨h1, h2⟩ :=
    theatrical_elements_table envW (DataTheater.new "bin") 1 "hi" .Basic dW
      r hr
  exact ⟨r, hr, h1, h2⟩

/-- Counterexample for C1 as stated: a successful Eldritch run produces 3
theatrical elements, not the 2 the per-level table claims. -/
theorem eldritch_artifact_count_cex :
    (resultElements
        (encrypt_with_drama envW (DataTheater.new "bin") 1 "secret"
          .Eldritch dW).1).length = 3 ∧
    ¬ (resultElements
        (encrypt_with_drama envW (DataTheater.new "bin") 1 "secret"
          .Eldritch dW).1).length = 2 := by
  refine ⟨by decide, by decide⟩

/-- C7 (amended): `encrypt_with_drama` is atomic for every error raised by
the encryption pipeline — all the error paths that precede the achievement
check: such an error is returned with the theater state unchanged.  It is
not atomic for the final clock read: when `start.elapsed()?` (line 201)
fails after the achievement check (line 199), the error is returned with the
achievement mutation already applied. -/
theorem error_atomicity_scope (env : CryptoEnv) (st : DataTheater)
    (user_id : Nat) (data : String) (level : EncryptionLevel) (d : Draws) :
    (encryptedData env d data
        (generate_theatrical_password user_id level) level = none →
      (encrypt_with_drama env st user_id data level d).1 = none ∧
      (encrypt_with_drama env st user_id data level d).2 = st) ∧
    (∀ enc, encryptedData env d data
        (generate_theatrical_password user_id level) level = some enc →
      d.elapsed = none →
      (encrypt_with_drama env st user_id data level d).1 = none ∧
      (encrypt_with_drama env st user_id data level d).2 =
        { st with achievements :=
            (check_achievements st.achievements user_id level).2 }) := by
  constructor
  · intro he
    constructor <;> simp [encrypt_with_drama, he]
  · intro enc he hel
    constructor <;> simp [encrypt_with_drama, he, hel]

/-- Witness for C7: a concrete pre-check error (failing AEAD) is atomic, and
a concrete post-check clock failure returns an error carrying the inserted
key. -/
theorem error_atomicity_scope_witness :
    ((encrypt_with_drama envFail (DataTheater.new "bin") 1 "hi" .Basic
        dW).1 = none ∧
      (encrypt_with_drama envFail (DataTheater.new "bin") 1 "hi" .Basic
        dW).2 = DataTheater.new "bin") ∧
    ((encrypt_with_drama envW (DataTheater.new "bin") 1 "hi" .Basic
        dNoClock).1 = none ∧
      (encrypt_with_drama envW (DataTheater.new "bin") 1 "hi" .Basic
        dNoClock).2 =
        { DataTheater.new "bin" with achievements :=
            (check_achievements (DataTheater.new "bin").achievements 1
              .Basic).2 }) :=
  ⟨(error_atomicity_scope envFail (DataTheater.new "bin") 1 "hi" .Basic
      dW).1 (by decide),
   (error_atomicity_scope envW (DataTheater.new "bin") 1 "hi" .Basic
      dNoClock).2 _ rfl rfl⟩

/-- Counterexample for C7 as stated: a concrete call whose encryption
succeeds but whose `start.elapsed()?` read fails returns an error, yet the
registry has gained the Basic achievement key — the failure was not
atomic. -/
theorem error_mutates_state_cex :
    (encrypt_with_drama envW (DataTheater.new "bin") 1 "hi" .Basic
      dNoClock).1 = none ∧
    (encrypt_with_drama envW (DataTheater.new "bin") 1 "hi" .Basic
      dNoClock).2.achievements = [achievement_key .Basic] ∧
    (encrypt_with_drama envW (DataTheater.new "bin") 1 "hi" .Basic
      dNoClock).2 ≠ DataTheater.new "bin" := by
  refine ⟨by decide, by decide, by decide⟩

theorem achievement_key_inj (L L' : EncryptionLevel)
    (h : achievement_key L = achievement_key L') : L = L' := by
  cases L <;> cases L' <;> first | rfl | exact absurd h (by decide)

theorem achievement_label_ne_empty (L : EncryptionLevel) :
    achievement_label L ≠ "" := by
  cases L <;> decide

theorem stepTheater_achievements (env : CryptoEnv) (st : DataTheater)
    (x : EncInput) (k : String) :
    k ∈ (stepTheater env st x).2.achievements ↔
      k ∈ st.achievements ∨
        (reachesGrant env x ∧ k = achievement_key x.level) := by
  cases he : encryptedData env x.draws x.data
      (generate_theatrical_password x.user_id x.level) x.level with
  | none =>
    simp only [stepTheater, encrypt_with_drama, he]
    have hns : ¬ reachesGrant env x := by simp [reachesGrant, he]
    simp [hns]
  | some enc =>
    have hs : reachesGrant env x := by simp [reachesGrant, he]
    have hupd : (stepTheater env st x).2 =
        { st with achievements :=
            (check_achievements st.achievements x.user_id x.level).2 } := by
      cases hel : x.draws.elapsed <;>
        simp [stepTheater, encrypt_with_drama, he, hel]
    rw [hupd]
    simp only [check_achievements]
    by_cases hmem : achievement_key x.level ∈ st.achievements
    · simp only [if_pos hmem, hs, true_and]
      constructor
      · exact fun h => Or.inl h
      · rintro (h | h)
        · exact h
        · rw [h]; exact hmem
    · simp only [if_neg hmem, List.mem_cons, hs, true_and]
      tauto

theorem runTrace_achievements (env : CryptoEnv) (xs : List EncInput) :
    ∀ st k, k ∈ (runTrace env st xs).achievements ↔
      k ∈ st.achievements ∨
        ∃ x ∈ xs, reachesGrant env x ∧ k = achievement_key x.level := by
  induction xs with
  | nil => intro st k; simp [runTrace]
  | cons x xs ih =>
    intro st k
    rw [runTrace, ih, stepTheater_achievements]
    simp only [List.mem_cons]
    constructor
    · rintro ((h | ⟨h1, h2⟩) | ⟨y, hy, h1, h2⟩)
      · exact Or.inl h
      · exact Or.inr ⟨x, Or.inl rfl, h1, h2⟩
      · exact Or.inr ⟨y, Or.inr hy, h1, h2⟩
    · rintro (h | ⟨y, (rfl | hy), h1, h2⟩)
      · exact Or.inl (Or.inl h)
      · exact Or.inl (Or.inr ⟨h1, h2⟩)
      · exact Or.inr ⟨y, hy, h1, h2⟩

/-- C6 (amended): the achievement grant for level `L` is consumed by the
first call at `L` whose encryption stage reaches the achievement check,
whether or not that call then succeeds overall.  For a successful transform
at `L`: if no earlier call at `L` reached the check it returns the non-empty
level label; once any call at `L` has reached the check, every later
successful transform at `L` (for any user id) returns no achievement.  A
call that encrypts successfully but fails the final clock read burns the
grant while returning an error, so the first fully successful transform at
`L` can return no achievement. -/
theorem achievement_exactly_once (env : CryptoEnv) (bin : String)
    (pre : List EncInput) (x : EncInput) (L : EncryptionLevel)
    (r : EncryptionResult) (hL : x.level = L)
    (h : (stepTheater env (runTrace env (DataTheater.new bin) pre) x).1 =
      some r) :
    ((∀ y ∈ pre, y.level = L → ¬ reachesGrant env y) →
        r.achievement_unlocked = some (achievement_label L) ∧
          achievement_label L ≠ "") ∧
    ((∃ y ∈ pre, y.level = L ∧ reachesGrant env y) →
        r.achievement_unlocked = none) := by
  subst hL
  set st := runTrace env (DataTheater.new bin) pre with hst
  have hgrant : achievement_key x.level ∈ st.achievements ↔
      ∃ y ∈ pre, y.level = x.level ∧ reachesGrant env y := by
    rw [hst, runTrace_achievements]
    simp only [DataTheater.new, List.not_mem_nil, false_or]
    constructor
    · rintro ⟨y, hy, h1, h2⟩
      exact ⟨y, hy, achievement_key_inj _ _ h2.symm, h1⟩
    · rintro ⟨y, hy, h1, h2⟩
      exact ⟨y, hy, h2, by rw [h1]⟩
  cases he : encryptedData env x.draws x.data
      (generate_theatrical_password x.user_id x.level) x.level with
  | none => simp [stepTheater, encrypt_with_drama, he] at h
  | some enc =>
    cases hel : x.draws.elapsed with
    | none => simp [stepTheater, encrypt_with_drama, he, hel] at h
    | some elapsedMs =>
    simp only [stepTheater, encrypt_with_drama, he, hel, check_achievements,
      Option.some_inj] at h
    by_cases hmem : achievement_key x.level ∈ st.achievements
    · rw [if_pos hmem] at h
      refine ⟨?_, ?_⟩
      · intro hnone
        obtain ⟨y, hy, h1, h2⟩ := hgrant.mp hmem
        exact absurd h2 (hnone y hy h1)
      · intro hsome
        rw [← h]
    · rw [if_neg hmem] at h
      refine ⟨?_, ?_⟩
      · intro hnone
        exact ⟨by rw [← h], achievement_label_ne_empty _⟩
      · intro hsome
        obtain ⟨y, hy, h1, h2⟩ := hsome
        exact absurd (hgrant.mpr ⟨y, hy, h1, h2⟩) hmem

/-- Witness for C6: after one successful Basic call, a second successful
Basic call on the same instance returns no achievement. -/
theorem achievement_exactly_once_witness :
    ∃ r, (stepTheater envW (runTrace envW (DataTheater.new "bin") [xW])
        xW).1 = some r ∧
      r.achievement_unlocked = none := by
  obtain ⟨r, hr⟩ : ∃ r,
      (stepTheater envW (runTrace envW (DataTheater.new "bin") [xW])
        xW).1 = some r := ⟨_, rfl⟩
  refine ⟨r, hr, ?_⟩
  exact (achievement_exactly_once envW "bin" [xW] xW .Basic r rfl hr).2
    ⟨xW, by simp, rfl, by decide⟩

/-- Counterexample for C6 as stated: a Basic call that encrypts successfully
but fails the clock read returns an error — it is not a successful
transform — yet consumes the grant; the next Basic call, the instance's
first successful Basic transform, returns no achievement label. -/
theorem achievement_burned_cex :
    (stepTheater envW (DataTheater.new "bin") xBurn).1 = none ∧
    (stepTheater envW (stepTheater envW (DataTheater.new "bin") xBurn).2
        xW).1.isSome = true ∧
    resultAchievement (stepTheater envW
        (stepTheater envW (DataTheater.new "bin") xBurn).2 xW).1 = none := by
  refine ⟨by decide, by decide, by decide⟩

theorem raceLe_trans (a b c : Nat × RaceResultM)
    (hab : raceLe a b = true) (hbc : raceLe b c = true) :
    raceLe a c = true := by
  simp only [raceLe, decide_eq_true_eq] at hab hbc ⊢
  omega

theorem raceLe_total (a b : Nat × RaceResultM) :
    (raceLe a b || raceLe b a) = true := by
  simp only [raceLe, Bool.or_eq_true, decide_eq_true_eq]
  omega

theorem computeResults_length (data_size : Nat) :
    ∀ (ps : List RaceParticipantM) (ms : List FloatV) (cs : List (Fin 6)),
      ms.length = ps.length → cs.length = ps.length →
      (computeResults data_size ps ms cs).length = ps.length := by
  intro ps
  induction ps with
  | nil => intro ms cs _ _; cases ms <;> cases cs <;> rfl
  | cons p ps ih =>
    intro ms cs hm hc
    cases ms with
    | nil => simp at hm
    | cons m ms =>
      cases cs with
      | nil => simp at hc
      | cons c cs =>
        simp only [computeResults, List.length_cons]
        rw [ih ms cs (by simpa using hm) (by simpa using hc)]

theorem raceSorted_perm (ps : List RaceParticipantM) (data_size : Nat)
    (ms : List FloatV) (cs : List (Fin 6)) :
    (raceSorted ps data_size ms cs).Perm
      (computeResults data_size ps ms cs) := by
  have h := (List.mergeSort_perm
    (computeResults data_size ps ms cs).enum raceLe).map Prod.snd
  rw [List.enum_map_snd] at h
  exact h

theorem raceSorted_length (ps : List RaceParticipantM) (data_size : Nat)
    (ms : List FloatV) (cs : List (Fin 6))
    (hm : ms.length = ps.length) (hc : cs.length = ps.length) :
    (raceSorted ps data_size ms cs).length = ps.length := by
  rw [(raceSorted_perm ps data_size ms cs).length_eq]
  exact computeResults_length data_size ps ms cs hm hc

theorem raceSorted_sorted (ps : List RaceParticipantM) (data_size : Nat)
    (ms : List FloatV) (cs : List (Fin 6)) :
    List.Pairwise (fun a b => a.time_ms ≤ b.time_ms)
      (raceSorted ps data_size ms cs) := by
  have hs := List.sorted_mergeSort raceLe_trans raceLe_total
    (computeResults data_size ps ms cs).enum
  exact List.pairwise_map.mpr (hs.imp (fun h => by
    simp only [raceLe, decide_eq_true_eq] at h
    omega))

theorem raceSorted_stable (ps : List RaceParticipantM) (data_size : Nat)
    (ms : List FloatV) (cs : List (Fin 6)) :
    ∃ L : List (Nat × RaceResultM),
      L.map Prod.snd = raceSorted ps data_size ms cs ∧
      L.Perm (computeResults data_size ps ms cs).enum ∧
      List.Pairwise raceLt L := by
  refine ⟨(computeResults data_size ps ms cs).enum.mergeSort raceLe,
    rfl, List.mergeSort_perm _ _, ?_⟩
  have hs := List.sorted_mergeSort raceLe_trans raceLe_total
    (computeResults data_size ps ms cs).enum
  have hnd : (((computeResults data_size ps ms cs).enum.mergeSort
      raceLe).map Prod.fst).Nodup := by
    have hperm := (List.mergeSort_perm
      (computeResults data_size ps ms cs).enum raceLe).map Prod.fst
    have hnd0 : ((computeResults data_size ps ms cs).enum.map
        Prod.fst).Nodup := by
      rw [List.enum_map_fst]; exact List.nodup_range _
    exact hperm.symm.nodup hnd0
  have hne : List.Pairwise (fun a b : Nat × RaceResultM => a.1 ≠ b.1)
      ((computeResults data_size ps ms cs).enum.mergeSort raceLe) :=
    List.pairwise_map.mp hnd
  exact (hs.and hne).imp (fun h => by
    obtain ⟨h1, h2⟩ := h
    simp only [raceLe, decide_eq_true_eq] at h1
    simp only [raceLt]
    omega)

theorem encryption_race_ok (ps : List RaceParticipantM) (data_size : Nat)
    (ms : List FloatV) (cs : List (Fin 6))
    (hne : ps ≠ []) (hm : ms.length = ps.length)
    (hc : cs.length = ps.length) :
    ∃ w rest, raceSorted ps data_size ms cs = w :: rest ∧
      encryption_race ps data_size ms cs =
        .ok { winner := w.name, results := w :: rest,
              prize := "A golden encryption key (decorative only)" } := by
  have hlen := raceSorted_length ps data_size ms cs hm hc
  cases hs : raceSorted ps data_size ms cs with
  | nil =>
    rw [hs] at hlen
    cases ps with
    | nil => exact absurd rfl hne
    | cons a l => simp at hlen
  | cons w rest =>
    refine ⟨w, rest, rfl, ?_⟩
    unfold encryption_race
    rw [hs]

theorem computeResults_time_le (data_size : Nat) :
    ∀ (ps : List RaceParticipantM) (ms : List FloatV) (cs : List (Fin 6))
      (row : RaceResultM), row ∈ computeResults data_size ps ms cs →
      row.time_ms ≤ u64Max := by
  intro ps
  induction ps with
  | nil =>
    intro ms cs row h
    cases ms <;> cases cs <;> simp [computeResults] at h
  | cons p ps ih =>
    intro ms cs row h
    cases ms with
    | nil => simp [computeResults] at h
    | cons m ms =>
      cases cs with
      | nil => simp [computeResults] at h
      | cons c cs =>
        simp only [computeResults, List.mem_cons] at h
        rcases h with h | h
        · rw [h]; exact f2u64_le _
        · exact ih ms cs row h

theorem computeResults_row_of_mem (data_size : Nat) :
    ∀ (ps : List RaceParticipantM) (ms : List FloatV) (cs : List (Fin 6))
      (p : RaceParticipantM),
      ms.length = ps.length → cs.length = ps.length → p ∈ ps →
      ∃ m ∈ ms, ∃ row ∈ computeResults data_size ps ms cs,
        row.time_ms = raceTime data_size p.encryption_speed m := by
  intro ps
  induction ps with
  | nil => intro ms cs p _ _ hp; simp at hp
  | cons q ps ih =>
    intro ms cs p hm hc hp
    cases ms with
    | nil => simp at hm
    | cons m ms =>
      cases cs with
      | nil => simp at hc
      | cons c cs =>
        rcases List.mem_cons.mp hp with rfl | hp'
        · refine ⟨m, by simp, ?_⟩
          refine ⟨_, List.mem_cons_self _ _, rfl⟩
        · obtain ⟨m', hm', row, hrow, ht⟩ := ih ms cs p
            (by simpa using hm) (by simpa using hc) hp'
          exact ⟨m', by simp [hm'], row,
            by simp only [computeResults, List.mem_cons]; exact Or.inr hrow,
            ht⟩

theorem raceTime_zero_speed (data_size : Nat) (m : FloatV)
    (hpos : 0 < data_size) (hm : uniformMult m) :
    raceTime data_size (.fin 0) m = u64Max := by
  obtain ⟨q, rfl, -, -⟩ := hm
  have h1 : fmul (FloatV.fin 0) (FloatV.fin q) = .fin 0 := by
    simp [fmul]
  have h2 : fdiv (natF data_size) (FloatV.fin 0) = .inf := by
    have hq : (0:ℚ) < (data_size:ℚ) := by exact_mod_cast hpos
    simp [fdiv, natF, hq]
  have h3 : fmul FloatV.inf (FloatV.fin 1000) = .inf := by
    norm_num [fmul]
  simp [raceTime, h1, h2, h3, f2u64]

theorem sorted_getLast_max :
    ∀ (l : List RaceResultM),
      List.Pairwise (fun a b => a.time_ms ≤ b.time_ms) l →
      (∀ y ∈ l, y.time_ms ≤ u64Max) →
      (∃ x ∈ l, x.time_ms = u64Max) →
      ∃ last, l.getLast? = some last ∧ last.time_ms = u64Max := by
  intro l
  induction l with
  | nil => intro _ _ hx; simp at hx
  | cons a t ih =>
    intro hp hall hx
    cases t with
    | nil =>
      obtain ⟨x, hx1, hx2⟩ := hx
      simp only [List.mem_singleton] at hx1
      subst hx1
      exact ⟨x, by simp, hx2⟩
    | cons b t' =>
      rw [List.getLast?_cons_cons]
      apply ih (List.pairwise_cons.mp hp).2
        (fun y hy => hall y (List.mem_cons_of_mem a hy))
      obtain ⟨x, hx1, hx2⟩ := hx
      rcases List.mem_cons.mp hx1 with rfl | hx'
      · have hab : x.time_ms ≤ b.time_ms :=
          (List.pairwise_cons.mp hp).1 b (by simp)
        have hbmax : b.time_ms ≤ u64Max := hall b (by simp)
        exact ⟨b, by simp, by omega⟩
      · exact ⟨x, hx', hx2⟩

/-- C5: for every non-empty participant list (with its per-participant
multiplier draws from [0.8, 1.2)), the race succeeds; its rows are a
permutation of the rows computed by
`time_ms = (data_size / (speed * mult)) * 1000`; they are sorted ascending by
`time_ms`, stably — the position-tagged rows are strictly sorted by
(time, original position) — and the winner is the first sorted row. -/
theorem race_contract (ps : List RaceParticipantM) (data_size : Nat)
    (ms : List FloatV) (cs : List (Fin 6))
    (hne : ps ≠ []) (hm : ms.length = ps.length)
    (hc : cs.length = ps.length)
    (_hrange : ∀ m ∈ ms, uniformMult m) :
    race_spec ps data_size ms cs := by
  obtain ⟨w, rest, hs, hrun⟩ :=
    encryption_race_ok ps data_size ms cs hne hm hc
  refine ⟨_, hrun, ?_, ?_, ?_, ⟨w, rest, rfl, rfl⟩, ?_, rfl⟩
  · show (w :: rest).Perm _
    rw [← hs]; exact raceSorted_perm ps data_size ms cs
  · show List.Pairwise _ (w :: rest)
    rw [← hs]; exact raceSorted_sorted ps data_size ms cs
  · show ∃ L : List (Nat × RaceResultM), L.map Prod.snd = w :: rest ∧ _
    rw [← hs]; exact raceSorted_stable ps data_size ms cs
  · show (w :: rest).length = ps.length
    rw [← hs]; exact raceSorted_length ps data_size ms cs hm hc

/-- Witness for C5 at a concrete two-participant race. -/
theorem race_contract_witness :
    ([fastP, zeroP] : List RaceParticipantM) ≠ [] ∧
    ([FloatV.fin 1, FloatV.fin 1] : List FloatV).length =
      ([fastP, zeroP] : List RaceParticipantM).length ∧
    ([0, 0] : List (Fin 6)).length =
      ([fastP, zeroP] : List RaceParticipantM).length ∧
    (∀ m ∈ ([FloatV.fin 1, FloatV.fin 1] : List FloatV), uniformMult m) ∧
    race_spec [fastP, zeroP] 1024 [FloatV.fin 1, FloatV.fin 1] [0, 0] := by
  have hu : uniformMult (FloatV.fin 1) := ⟨1, rfl, by norm_num, by norm_num⟩
  have hall : ∀ m ∈ ([FloatV.fin 1, FloatV.fin 1] : List FloatV),
      uniformMult m := by
    intro m hm
    simp only [List.mem_cons, List.not_mem_nil, or_false] at hm
    rcases hm with rfl | rfl
    · exact hu
    · exact hu
  exact ⟨by simp, rfl, rfl, hall,
    race_contract [fastP, zeroP] 1024 [FloatV.fin 1, FloatV.fin 1] [0, 0]
      (by simp) rfl rfl hall⟩

/-- C10 (amended): for every positive payload and non-empty participant list
containing a zero-speed participant, the race still returns a result without
failing; that participant's time is infinite and the `as u64` cast saturates
it to `u64::MAX`; every time is at most `u64::MAX`, so the last sorted row has
time `u64::MAX` — the saturated participant is ranked last up to ties at
`u64::MAX`. -/
theorem zero_speed_saturates (ps : List RaceParticipantM) (data_size : Nat)
    (ms : List FloatV) (cs : List (Fin 6))
    (hpos : 0 < data_size) (hm : ms.length = ps.length)
    (hc : cs.length = ps.length)
    (hrange : ∀ m ∈ ms, uniformMult m)
    (hzero : ∃ p ∈ ps, p.encryption_speed = .fin 0) :
    zero_speed_spec ps data_size ms cs := by
  obtain ⟨p, hp, hp0⟩ := hzero
  have hne : ps ≠ [] := by
    intro h; rw [h] at hp; simp at hp
  obtain ⟨w, rest, hs, hrun⟩ :=
    encryption_race_ok ps data_size ms cs hne hm hc
  obtain ⟨m, hmm, row, hrow, ht⟩ :=
    computeResults_row_of_mem data_size ps ms cs p hm hc hp
  have hta : row.time_ms = u64Max := by
    rw [ht, hp0, raceTime_zero_speed data_size m hpos (hrange m hmm)]
  have hperm := raceSorted_perm ps data_size ms cs
  have hmemsorted : row ∈ raceSorted ps data_size ms cs :=
    hperm.mem_iff.mpr hrow
  have hall : ∀ y ∈ raceSorted ps data_size ms cs, y.time_ms ≤ u64Max :=
    fun y hy => computeResults_time_le data_size ps ms cs y (hperm.subset hy)
  refine ⟨_, hrun, ?_, ?_, ?_⟩
  · show ∃ res ∈ w :: rest, res.time_ms = u64Max
    rw [← hs]
    exact ⟨row, hmemsorted, hta⟩
  · show ∀ res ∈ w :: rest, res.time_ms ≤ u64Max
    rw [← hs]
    exact hall
  · show ∃ last, (w :: rest).getLast? = some last ∧ last.time_ms = u64Max
    rw [← hs]
    exact sorted_getLast_max _ (raceSorted_sorted ps data_size ms cs) hall
      ⟨row, hmemsorted, hta⟩

/-- Witness for C10 at a concrete race holding a zero-speed participant. -/
theorem zero_speed_saturates_witness :
    (0 : Nat) < 1024 ∧
    (∃ p ∈ ([fastP, zeroP] : List RaceParticipantM),
      p.encryption_speed = .fin 0) ∧
    zero_speed_spec [fastP, zeroP] 1024 [FloatV.fin 1, FloatV.fin 1]
      [0, 0] := by
  have hu : uniformMult (FloatV.fin 1) := ⟨1, rfl, by norm_num, by norm_num⟩
  have hall : ∀ m ∈ ([FloatV.fin 1, FloatV.fin 1] : List FloatV),
      uniformMult m := by
    intro m hm
    simp only [List.mem_cons, List.not_mem_nil, or_false] at hm
    rcases hm with rfl | rfl
    · exact hu
    · exact hu
  refine ⟨by norm_num, ⟨zeroP, by simp, rfl⟩, ?_⟩
  exact zero_speed_saturates [fastP, zeroP] 1024
    [FloatV.fin 1, FloatV.fin 1] [0, 0] (by norm_num) rfl rfl hall
    ⟨zeroP, by simp, rfl⟩

/-- Counterexample for C10 as stated: with payload size 0 the zero-speed
participant's division is `0.0 / 0.0 = NaN`, not an infinity; the cast takes
`NaN` to `0`, not to `u64::MAX`, and the participant sorts first, not last. -/
theorem zero_speed_nan_cex :
    ∃ r, encryption_race [zeroP] 0 [FloatV.fin 1] [0] = RaceOutcome.ok r ∧
      r.results =
        [{ name := "Zero", time_ms := 0, vehicle := "v",
           victory_cry := "ENCRYPTED TO THE MOON!" }] ∧
      ∀ res ∈ r.results, res.time_ms ≠ u64Max := by
  have h1 : raceTime 0 (FloatV.fin 0) (FloatV.fin 1) = 0 := by
    have hm : fmul (FloatV.fin 0) (FloatV.fin 1) = .fin 0 := by
      simp [fmul]
    have hd : fdiv (natF 0) (FloatV.fin 0) = .nan := by
      simp [fdiv, natF]
    simp [raceTime, hm, hd, fmul, f2u64]
  have hcr : computeResults 0 [zeroP] [FloatV.fin 1] [0] =
      [{ name := "Zero", time_ms := 0, vehicle := "v",
         victory_cry := "ENCRYPTED TO THE MOON!" }] := by
    simp [computeResults, zeroP, h1, victory_cries]
  have hrs : raceSorted [zeroP] 0 [FloatV.fin 1] [0] =
      [{ name := "Zero", time_ms := 0, vehicle := "v",
         victory_cry := "ENCRYPTED TO THE MOON!" }] := by
    simp [raceSorted, hcr, List.enum, List.mergeSort_singleton]
  refine ⟨{ winner := "Zero",
            results := [{ name := "Zero", time_ms := 0, vehicle := "v",
                          victory_cry := "ENCRYPTED TO THE MOON!" }],
            prize := "A golden encryption key (decorative only)" },
    ?_, rfl, ?_⟩
  · unfold encryption_race
    rw [hrs]
  · intro res hres
    simp only [List.mem_singleton] at hres
    rw [hres]
    decide
